import Mathlib

/-!
Verification of the IBIS_Sender MQTT display controller.

Shallow embedding of the core encoding pipeline of `IBIS_Sender_MQTT.ino`:
charset normalization (`process_special_characters`), checksum
(`compute_checksum`), telegram framing (`wrap_telegram`), VDV hex encoding
(`vdv_hex`), the DS021t display-text telegram builder (`DS021t`), the serial
write (`send_telegram`) and the MQTT dispatcher (`mqtt_callback`).

Bytes are modelled as `Nat` values below 256; C strings are modelled as lists
of bytes, where the end of the list plays the role of the terminating NUL, so
a faithful list model of a C string contains no `0` byte.  Fixed-size C
buffers (all 256 bytes here) appear as `List.take` truncations exactly where
`strncpy`/`snprintf` truncate in the source.
-/

namespace IBIS

/-- The seven mapped 2-byte UTF-8 continuations (after a `0xC3` lead byte) and
their single-byte IBIS replacements, from the `if`/`else if` chain of
`process_special_characters`. -/
def mapC3 (b : Nat) : Option Nat :=
  if b = 0xA4 then some 0x7B        -- ä → '{'
  else if b = 0xB6 then some 0x7C   -- ö → '|'
  else if b = 0xBC then some 0x7D   -- ü → '}'
  else if b = 0x9F then some 0x7E   -- ß → '~'
  else if b = 0x84 then some 0x5B   -- Ä → '['
  else if b = 0x96 then some 0x5C   -- Ö → '\'
  else if b = 0x9C then some 0x5D   -- Ü → ']'
  else none

/-- In-place charset normalization `process_special_characters`: walk the
buffer until the first NUL, replacing each `0xC3`-led mapped pair by its
single replacement byte and copying every other byte through (a `0xC3` whose
successor is unmapped is copied alone, and the successor is re-examined). -/
def process_special_characters : List Nat → List Nat
  | [] => []
  | b :: rest =>
    if b = 0 then []
    else if b = 0xC3 then
      match rest with
      | [] => [0xC3]
      | b2 :: rest2 =>
        match mapC3 b2 with
        | some r => r :: process_special_characters rest2
        | none => 0xC3 :: process_special_characters (b2 :: rest2)
    else b :: process_special_characters rest

/-- The loop of `compute_checksum`: XOR-fold the bytes into the accumulator,
stopping at the first NUL byte (the C loop condition `msg[i] != '\0'`). -/
def compute_checksum_from (acc : Nat) : List Nat → Nat
  | [] => acc
  | b :: rest => if b = 0 then acc else compute_checksum_from (acc ^^^ b) rest

/-- Function `compute_checksum`: XOR checksum of a C string over initial value 0x7F. -/
def compute_checksum (msg : List Nat) : Nat :=
  compute_checksum_from 0x7F msg

/-- Function `wrap_telegram`: append the carriage return, then append the checksum of
everything so far.  The result is the buffer content written by the C
function (`len(payload)+2` bytes, terminator NUL excluded). -/
def wrap_telegram (telegram : List Nat) : List Nat :=
  (telegram ++ [0x0D]) ++ [compute_checksum (telegram ++ [0x0D])]

/-- Function `send_telegram`: the byte sequence actually written to `Serial1`.  The C
function copies the input into a 256-byte buffer with
`strncpy(..., sizeof-1)` (truncation to 255 bytes), normalizes, wraps, and
then writes `strlen(processed_telegram)` bytes — a terminator scan, so the
wire bytes stop at the first NUL of the wrapped telegram. -/
def send_telegram (telegram : List Nat) : List Nat :=
  (wrap_telegram (process_special_characters (telegram.take 255))).takeWhile
    (fun b => b != 0)

/-- The VDV hex alphabet `"0123456789:;<=>?"` as bytes. -/
def vdvhex : List Nat :=
  [0x30, 0x31, 0x32, 0x33, 0x34, 0x35, 0x36, 0x37,
   0x38, 0x39, 0x3A, 0x3B, 0x3C, 0x3D, 0x3E, 0x3F]

/-- Function `vdv_hex`: encode an `int` into 1 or 2 VDV hex characters, or the
sentinel `"??"` when out of [0,255].  For an in-range value the C shifts
`value >> 4` and masks `value & 0x0F`, i.e. `/ 16` and `% 16`. -/
def vdv_hex (value : Int) : List Nat :=
  if value < 0 ∨ value > 255 then [0x3F, 0x3F]
  else if value > 15 then
    [vdvhex.getD (value.toNat / 16) 0, vdvhex.getD (value.toNat % 16) 0]
  else [vdvhex.getD value.toNat 0]

/-- The `message` buffer of `DS021t` after the newline-appending `snprintf`:
two extra newlines when the text already contains one, three otherwise,
truncated to 255 bytes by `snprintf(message, sizeof(message), ...)`. -/
def DS021t_message (text : List Nat) : List Nat :=
  if text.contains 0x0A then (text ++ [0x0A, 0x0A]).take 255
  else (text ++ [0x0A, 0x0A, 0x0A]).take 255

/-- The value `int len = strlen(message)` of `DS021t`. -/
def DS021t_len (text : List Nat) : Nat :=
  (DS021t_message text).length

/-- The value `int num_blocks = (total_len_with_padding + 15) / 16`, with
`total_len_with_padding = len + 2`. -/
def DS021t_num_blocks (text : List Nat) : Nat :=
  (DS021t_len text + 2 + 15) / 16

/-- The value `int usable_bytes = (num_blocks * 16) - 2`. -/
def DS021t_usable_bytes (text : List Nat) : Nat :=
  DS021t_num_blocks text * 16 - 2

/-- The `message` buffer after the space-padding loop of `DS021t`
(`for (i = len; i < usable_bytes; i++) message[i] = ' '`). -/
def DS021t_padded (text : List Nat) : List Nat :=
  DS021t_message text ++
    List.replicate (DS021t_usable_bytes text - DS021t_len text) 0x20

/-- The `telegram` buffer built by
`snprintf(telegram, sizeof(telegram), "aA%s%sA0%s", ...)`: type marker "aA",
VDV-hex address, VDV-hex block count, sub-type marker "A0", padded message,
truncated to 255 bytes. -/
def DS021t_telegram (address : Int) (text : List Nat) : List Nat :=
  ([0x61, 0x41] ++ vdv_hex address ++
    vdv_hex (Int.ofNat (DS021t_num_blocks text)) ++ [0x41, 0x30] ++
    DS021t_padded text).take 255

/-- The bytes `DS021t` causes to be written to the serial byte-sink. -/
def DS021t_wire (address : Int) (text : List Nat) : List Nat :=
  send_telegram (DS021t_telegram address text)

/-- Observable state touched by `mqtt_callback`: the global message buffer,
the lighting pin level (`true` = HIGH), and the sequence of byte strings
written to `Serial1`. -/
structure SysState where
  flipdotMessage : List Nat
  lighting : Bool
  serial1 : List (List Nat)
deriving DecidableEq

def topic_message : String := "home/flipdot/message"

def topic_lighting : String := "home/flipdot/lighting"

/-- An unrelated topic, used to exercise the dispatcher's default branch. -/
def topic_other : String := "home/flipdot/other"

/-- The test `strncmp(buffer, pat, pat.length) == 0` for a NUL-free pattern `pat`:
the buffer starts with exactly the bytes of `pat`. -/
def bytesStartWith : List Nat → List Nat → Bool
  | [], _ => true
  | _ :: _, [] => false
  | p :: ps, b :: bs => p == b && bytesStartWith ps bs

/-- Function `mqtt_callback`: on the message topic, store the payload (truncated to
255 bytes) in `flipdotMessage_str`, re-render it through `snprintf "%s"`
(which stops at the first NUL) and send a `DS021t` telegram with address 2;
on the lighting topic, compare prefixes "On" / "Off" against the local
buffer; otherwise do nothing. -/
def mqtt_callback (topic : String) (payload : List Nat) (st : SysState) :
    SysState :=
  let buffer := payload.take 255
  if topic = topic_message then
    let stored := payload.take 255
    let display := stored.takeWhile (fun b => b != 0)
    { st with
      flipdotMessage := stored,
      serial1 := st.serial1 ++ [DS021t_wire 2 display] }
  else if topic = topic_lighting then
    if bytesStartWith [0x4F, 0x6E] buffer then { st with lighting := true }
    else if bytesStartWith [0x4F, 0x66, 0x66] buffer then
      { st with lighting := false }
    else st
  else st

/-! Unfolding equations for the charset normalizer. -/

theorem process_nil : process_special_characters [] = [] := rfl

theorem process_zero (rest : List Nat) :
    process_special_characters (0 :: rest) = [] := by
  rw [process_special_characters.eq_def]
  simp

theorem process_other {b : Nat} (rest : List Nat) (h0 : b ≠ 0)
    (hC3 : b ≠ 0xC3) :
    process_special_characters (b :: rest) =
      b :: process_special_characters rest := by
  rw [process_special_characters.eq_def]
  simp [h0, hC3]

theorem process_C3_single : process_special_characters [0xC3] = [0xC3] := by
  rw [process_special_characters.eq_def]
  simp

theorem process_map {b2 r : Nat} (rest2 : List Nat)
    (hmap : mapC3 b2 = some r) :
    process_special_characters (0xC3 :: b2 :: rest2) =
      r :: process_special_characters rest2 := by
  rw [process_special_characters.eq_def]
  simp [hmap]

theorem process_nomap {b2 : Nat} (rest2 : List Nat) (hmap : mapC3 b2 = none) :
    process_special_characters (0xC3 :: b2 :: rest2) =
      0xC3 :: process_special_characters (b2 :: rest2) := by
  rw [process_special_characters.eq_def]
  simp [hmap]

/-! Helper lemmas about the charset normalizer. -/

/-- A replacement byte produced by `mapC3` is nonzero, is not a `0xC3` lead
byte, and is itself unmapped. -/
theorem mapC3_some_facts {b r : Nat} (h : mapC3 b = some r) :
    r ≠ 0 ∧ r ≠ 0xC3 ∧ mapC3 r = none := by
  unfold mapC3 at h
  split_ifs at h <;> simp only [Option.some.injEq, reduceCtorEq] at h <;>
    subst h <;> decide

/-- Normalization never lengthens the buffer. -/
theorem process_length_le (l : List Nat) :
    (process_special_characters l).length ≤ l.length := by
  induction l using process_special_characters.induct with
  | case1 => simp [process_nil]
  | case2 rest2 => simp [process_zero]
  | case3 h => simp [process_C3_single]
  | case4 b2 rest2 r hmap h ih =>
    rw [process_map rest2 hmap]
    simp only [List.length_cons]
    omega
  | case5 b2 rest2 hmap h ih =>
    rw [process_nomap rest2 hmap]
    simp only [List.length_cons] at ih ⊢
    omega
  | case6 b2 rest2 h0 hC3 ih =>
    rw [process_other rest2 h0 hC3]
    simp only [List.length_cons]
    omega

/-- Normalization is the identity on buffers with no NUL and no `0xC3`. -/
theorem process_id_of_clean {l : List Nat} (h : ∀ b ∈ l, b ≠ 0 ∧ b ≠ 0xC3) :
    process_special_characters l = l := by
  induction l with
  | nil => rfl
  | cons b rest ih =>
    have hb := h b (by simp)
    have hrest : ∀ c ∈ rest, c ≠ 0 ∧ c ≠ 0xC3 := fun c hc => h c (by simp [hc])
    rw [process_other rest hb.1 hb.2, ih hrest]

/-- Whether the head of the buffer is a mapped continuation byte. -/
def headMapped : List Nat → Bool
  | [] => false
  | b :: _ => (mapC3 b).isSome

/-- A buffer is normalized when it contains no NUL byte and no `0xC3`
immediately followed by a mapped continuation byte. -/
def normalizedB : List Nat → Bool
  | [] => true
  | b :: rest => b != 0 && (b != 0xC3 || !headMapped rest) && normalizedB rest

/-- If the head of a cons cell is not a mapped continuation byte as seen by
`headMapped`, then `mapC3` rejects it. -/
theorem headMapped_eq_none {b : Nat} {rest : List Nat}
    (h : headMapped (b :: rest) = false) : mapC3 b = none := by
  cases hm : mapC3 b with
  | none => rfl
  | some r => simp [headMapped, hm] at h

/-- Normalization is the identity on normalized buffers. -/
theorem process_id_of_normalized {l : List Nat} (h : normalizedB l = true) :
    process_special_characters l = l := by
  induction l with
  | nil => rfl
  | cons b rest ih =>
    simp only [normalizedB, Bool.and_eq_true, Bool.or_eq_true, bne_iff_ne,
      ne_eq, Bool.not_eq_true'] at h
    obtain ⟨⟨hb0, hbc⟩, hrest⟩ := h
    by_cases hc : b = 0xC3
    · subst hc
      have hhm : headMapped rest = false := by
        cases hbc with
        | inl h' => exact absurd rfl h'
        | inr h' => exact h'
      cases rest with
      | nil => exact process_C3_single
      | cons b2 rest2 =>
        rw [process_nomap rest2 (headMapped_eq_none hhm), ih hrest]
    · rw [process_other rest hb0 hc, ih hrest]

/-- If the buffer's head is not a mapped continuation byte, neither is the
head of its normalization. -/
theorem headMapped_process {l : List Nat} (h : headMapped l = false) :
    headMapped (process_special_characters l) = false := by
  cases l with
  | nil => rfl
  | cons b rest =>
    have hnone : mapC3 b = none := headMapped_eq_none h
    by_cases hb0 : b = 0
    · subst hb0
      rw [process_zero]
      rfl
    · by_cases hbc : b = 0xC3
      · subst hbc
        cases rest with
        | nil =>
          rw [process_C3_single]
          simp [headMapped, hnone]
        | cons b2 rest2 =>
          cases hm : mapC3 b2 with
          | some r =>
            rw [process_map rest2 hm]
            simp [headMapped, (mapC3_some_facts hm).2.2]
          | none =>
            rw [process_nomap rest2 hm]
            simp [headMapped, hnone]
      · rw [process_other rest hb0 hbc]
        simp [headMapped, hnone]

/-- The output of normalization is always a normalized buffer. -/
theorem process_normalized (l : List Nat) :
    normalizedB (process_special_characters l) = true := by
  induction l using process_special_characters.induct with
  | case1 => rfl
  | case2 rest2 =>
    rw [process_zero]
    rfl
  | case3 h =>
    rw [process_C3_single]
    decide
  | case4 b2 rest2 r hmap h ih =>
    obtain ⟨hr0, hrc, _⟩ := mapC3_some_facts hmap
    rw [process_map rest2 hmap]
    simp [normalizedB, bne_iff_ne, hr0, hrc, ih]
  | case5 b2 rest2 hmap h ih =>
    have hhm : headMapped (b2 :: rest2) = false := by
      simp [headMapped, hmap]
    rw [process_nomap rest2 hmap]
    simp [normalizedB, ih, headMapped_process hhm]
  | case6 b2 rest2 h0 hC3 ih =>
    rw [process_other rest2 h0 hC3]
    simp [normalizedB, bne_iff_ne, h0, hC3, ih]

/-! Helper lemmas about checksum, takeWhile, VDV hex. -/

/-- On a NUL-free buffer the checksum loop is a plain XOR fold. -/
theorem compute_checksum_from_eq_foldl {l : List Nat} (h : (0 : Nat) ∉ l)
    (acc : Nat) :
    compute_checksum_from acc l = l.foldl (fun a b => a ^^^ b) acc := by
  induction l generalizing acc with
  | nil => rfl
  | cons b rest ih =>
    have hb : b ≠ 0 := fun e => h (by simp [e])
    have hrest : (0 : Nat) ∉ rest := fun hh => h (List.mem_cons_of_mem _ hh)
    simp [compute_checksum_from, hb, ih hrest]

/-- Function `takeWhile` passes a whole leading chunk whose bytes all satisfy the
predicate. -/
theorem takeWhile_append_all {p : Nat → Bool} {l : List Nat} (m : List Nat)
    (h : ∀ b ∈ l, p b = true) :
    (l ++ m).takeWhile p = l ++ m.takeWhile p := by
  induction l with
  | nil => simp
  | cons b rest ih =>
    have hb := h b (by simp)
    simp [List.takeWhile_cons, hb, ih (fun c hc => h c (by simp [hc]))]

/-- Every byte of the VDV hex alphabet read at an index up to 15 lies in
`[0x30, 0x3F]`. -/
theorem vdvhex_getD_mem (i : Nat) (h : i ≤ 15) :
    0x30 ≤ vdvhex.getD i 0 ∧ vdvhex.getD i 0 ≤ 0x3F := by
  interval_cases i <;> decide

/-- Every byte emitted by `vdv_hex` lies in `[0x30, 0x3F]`. -/
theorem vdv_hex_range (v : Int) : ∀ b ∈ vdv_hex v, 0x30 ≤ b ∧ b ≤ 0x3F := by
  intro b hb
  unfold vdv_hex at hb
  split_ifs at hb with h1 h2
  · simp only [List.mem_cons, List.not_mem_nil, or_false] at hb
    rcases hb with rfl | rfl <;> decide
  · simp only [List.mem_cons, List.not_mem_nil, or_false] at hb
    rcases hb with rfl | rfl
    · exact vdvhex_getD_mem (v.toNat / 16) (by omega)
    · exact vdvhex_getD_mem (v.toNat % 16) (by omega)
  · simp only [List.mem_cons, List.not_mem_nil, or_false] at hb
    subst hb
    exact vdvhex_getD_mem v.toNat (by omega)

/-- Function `vdv_hex` emits at most two characters. -/
theorem vdv_hex_length (v : Int) : (vdv_hex v).length ≤ 2 := by
  unfold vdv_hex
  split_ifs <;> simp

/-! Claim theorems. -/

/-- Claim C6: `process_special_characters` stops at the first NUL byte, replaces
exactly the seven 2-byte UTF-8 sequences `C3 A4`, `C3 B6`, `C3 BC`, `C3 9F`,
`C3 84`, `C3 96`, `C3 9C` with `{`, `|`, `}`, `~`, `[`, `\`, `]`, passes
every other byte through unchanged (including a lone `0xC3` lead byte whose
successor is not a mapped continuation byte), never lengthens the buffer,
and maps "Müller" (7 UTF-8 bytes) to "M}ller" (6 bytes). -/
theorem process_special_characters_spec (l : List Nat) (b : Nat) :
    (process_special_characters l).length ≤ l.length ∧
    ((∀ c ∈ l, c ≠ 0 ∧ c ≠ 0xC3) → process_special_characters l = l) ∧
    process_special_characters (0 :: l) = [] ∧
    process_special_characters (0xC3 :: 0xA4 :: l) =
      0x7B :: process_special_characters l ∧
    process_special_characters (0xC3 :: 0xB6 :: l) =
      0x7C :: process_special_characters l ∧
    process_special_characters (0xC3 :: 0xBC :: l) =
      0x7D :: process_special_characters l ∧
    process_special_characters (0xC3 :: 0x9F :: l) =
      0x7E :: process_special_characters l ∧
    process_special_characters (0xC3 :: 0x84 :: l) =
      0x5B :: process_special_characters l ∧
    process_special_characters (0xC3 :: 0x96 :: l) =
      0x5C :: process_special_characters l ∧
    process_special_characters (0xC3 :: 0x9C :: l) =
      0x5D :: process_special_characters l ∧
    process_special_characters [0xC3] = [0xC3] ∧
    (mapC3 b = none →
      process_special_characters (0xC3 :: b :: l) =
        0xC3 :: process_special_characters (b :: l)) ∧
    (b ≠ 0 → b ≠ 0xC3 →
      process_special_characters (b :: l) =
        b :: process_special_characters l) ∧
    process_special_characters [0x4D, 0xC3, 0xBC, 0x6C, 0x6C, 0x65, 0x72] =
      [0x4D, 0x7D, 0x6C, 0x6C, 0x65, 0x72] :=
  ⟨process_length_le l, fun h => process_id_of_clean h, process_zero l,
    process_map l (by decide), process_map l (by decide),
    process_map l (by decide), process_map l (by decide),
    process_map l (by decide), process_map l (by decide),
    process_map l (by decide), process_C3_single,
    fun hb => process_nomap l hb,
    fun h0 hC3 => process_other l h0 hC3, by decide⟩

theorem process_special_characters_spec_witness :
    process_special_characters [0x61] = [0x61] ∧
    process_special_characters [0xC3, 0x62, 0x61] =
      0xC3 :: process_special_characters [0x62, 0x61] ∧
    process_special_characters [0x62, 0x61] =
      0x62 :: process_special_characters [0x61] := by
  obtain ⟨-, h2, -, -, -, -, -, -, -, -, -, h12, h13, -⟩ :=
    process_special_characters_spec [0x61] 0x62
  exact ⟨h2 (by decide), h12 (by decide), h13 (by decide) (by decide)⟩

/-- Claim C9: the charset normalizer is idempotent — running
`process_special_characters` on its own output changes nothing. -/
theorem process_special_characters_idempotent (l : List Nat) :
    process_special_characters (process_special_characters l) =
      process_special_characters l :=
  process_id_of_normalized (process_normalized l)

/-- Claim C4: for a NUL-free payload, `wrap_telegram` produces exactly
`len(payload)+2` bytes: the payload, a carriage return, and one checksum
byte that XOR-folds every preceding byte (payload plus CR) over the initial
accumulator `0x7F`; re-running the checksum over all bytes but the last
yields the last byte, and `compute_checksum "A" = 0x3E`. -/
theorem wrap_telegram_spec (p : List Nat) (hp : (0 : Nat) ∉ p) :
    wrap_telegram p = p ++ [0x0D, compute_checksum (p ++ [0x0D])] ∧
    (wrap_telegram p).length = p.length + 2 ∧
    compute_checksum (p ++ [0x0D]) =
      (p ++ [0x0D]).foldl (fun acc b => acc ^^^ b) 0x7F ∧
    compute_checksum (wrap_telegram p).dropLast =
      (wrap_telegram p).getLastD 0 ∧
    compute_checksum [0x41] = 0x3E := by
  have h13 : (0 : Nat) ∉ p ++ [0x0D] := by
    intro hm
    rcases List.mem_append.1 hm with h | h
    · exact hp h
    · simp at h
  refine ⟨by simp [wrap_telegram], by simp [wrap_telegram], ?_, ?_, by decide⟩
  · unfold compute_checksum
    exact compute_checksum_from_eq_foldl h13 0x7F
  · have hw : wrap_telegram p =
        (p ++ [0x0D]) ++ [compute_checksum (p ++ [0x0D])] := rfl
    rw [hw]
    simp

theorem wrap_telegram_spec_witness :
    wrap_telegram [0x41] = [0x41, 0x0D, 0x33] ∧
    (wrap_telegram [0x41]).length = 1 + 2 := by
  have h := wrap_telegram_spec [0x41] (by decide)
  refine ⟨?_, ?_⟩
  · rw [h.1]
    decide
  · simpa using h.2.1

/-- Claim C5: `vdv_hex` emits one character (the alphabet byte at index `value`)
for values in [0,15], two characters (high nibble then low nibble, each
through the alphabet) for values in [16,255], and the literal "??" for any
value outside [0,255]. -/
theorem vdv_hex_spec (v : Int) :
    (0 ≤ v → v ≤ 15 → vdv_hex v = [vdvhex.getD v.toNat 0]) ∧
    (16 ≤ v → v ≤ 255 →
      vdv_hex v =
        [vdvhex.getD (v.toNat / 16) 0, vdvhex.getD (v.toNat % 16) 0]) ∧
    ((v < 0 ∨ 255 < v) → vdv_hex v = [0x3F, 0x3F]) := by
  refine ⟨fun h1 h2 => ?_, fun h1 h2 => ?_, fun h => ?_⟩ <;> unfold vdv_hex
  · rw [if_neg (by omega), if_neg (by omega)]
  · rw [if_neg (by omega), if_pos (by omega)]
  · rw [if_pos (by omega)]

theorem vdv_hex_spec_witness :
    vdv_hex 5 = [0x35] ∧ vdv_hex 100 = [0x36, 0x34] ∧
    vdv_hex 300 = [0x3F, 0x3F] := by
  refine ⟨?_, ?_, ?_⟩
  · rw [(vdv_hex_spec 5).1 (by decide) (by decide)]
    decide
  · rw [(vdv_hex_spec 100).2.1 (by decide) (by decide)]
    decide
  · exact (vdv_hex_spec 300).2.2 (by decide)

/-- Claim C3 (code bug): `send_telegram` writes `strlen(processed_telegram)` bytes,
a terminator scan.  For input payload "r" the wrapped telegram is
`72 0D 00` — the checksum byte is `0x00` — but only the first two bytes
reach the byte-sink, so the transmitted length is not `len(payload)+2`. -/
theorem send_telegram_strlen_drops_zero_checksum :
    wrap_telegram (process_special_characters [0x72]) = [0x72, 0x0D, 0x00] ∧
    send_telegram [0x72] = [0x72, 0x0D] ∧
    ¬(send_telegram [0x72]).length = ([0x72] : List Nat).length + 2 := by
  decide

set_option maxRecDepth 8000 in
/-- Claim C2 (code bug): for a 253-byte text without a newline, the
`snprintf` of `DS021t` silently truncates the appended newlines (only two of three
survive in the 255-byte string), and the padding loop runs up to
`usable_bytes = 270`, past the last valid index (255) of the 256-byte
`message` buffer — an out-of-bounds write instead of a rejection. -/
theorem DS021t_overflow_on_long_text :
    DS021t_len (List.replicate 253 0x41) = 255 ∧
    DS021t_usable_bytes (List.replicate 253 0x41) = 270 ∧
    255 < DS021t_usable_bytes (List.replicate 253 0x41) ∧
    DS021t_message (List.replicate 253 0x41) =
      List.replicate 253 0x41 ++ [0x0A, 0x0A] := by
  decide


/-! MQTT dispatcher lemmas. -/

/-- A short prefix check is unaffected by truncating the buffer to a length
at least as long as the pattern. -/
theorem bytesStartWith_take (pat : List Nat) :
    ∀ (l : List Nat) (n : Nat), pat.length ≤ n →
      bytesStartWith pat (l.take n) = bytesStartWith pat l := by
  induction pat with
  | nil => intro l n _; rfl
  | cons p ps ih =>
    intro l n h
    cases l with
    | nil => rw [List.take_nil]
    | cons a as =>
      cases n with
      | zero => simp at h
      | succ n =>
        simp only [List.take_succ_cons, bytesStartWith]
        rw [ih as n (by simpa using h)]

/-- A buffer beginning with "Off" does not begin with "On". -/
theorem bytesStartWith_Off_not_On {l : List Nat}
    (h : bytesStartWith [0x4F, 0x66, 0x66] l = true) :
    bytesStartWith [0x4F, 0x6E] l = false := by
  match l with
  | [] => simp [bytesStartWith] at h
  | [a] => simp [bytesStartWith] at h
  | a :: b :: rest =>
    simp only [bytesStartWith, Bool.and_eq_true, beq_iff_eq] at h
    obtain ⟨rfl, rfl, -⟩ := h
    simp [bytesStartWith]

/-- Claim C7: on the lighting topic, a payload beginning with the bytes "On" sets
the lighting output HIGH, a payload beginning with "Off" sets it LOW (so
"Offline" sets it LOW by prefix match), the comparison is byte-exact
(case-sensitive), and a payload matching neither prefix leaves the whole
state unchanged. -/
theorem mqtt_lighting_spec (payload : List Nat) (st : SysState) :
    (bytesStartWith [0x4F, 0x6E] payload = true →
      mqtt_callback topic_lighting payload st = { st with lighting := true }) ∧
    (bytesStartWith [0x4F, 0x66, 0x66] payload = true →
      mqtt_callback topic_lighting payload st =
        { st with lighting := false }) ∧
    (bytesStartWith [0x4F, 0x6E] payload = false →
      bytesStartWith [0x4F, 0x66, 0x66] payload = false →
      mqtt_callback topic_lighting payload st = st) := by
  have hOn := bytesStartWith_take [0x4F, 0x6E] payload 255 (by decide)
  have hOff := bytesStartWith_take [0x4F, 0x66, 0x66] payload 255 (by decide)
  refine ⟨fun h => ?_, fun h => ?_, fun h1 h2 => ?_⟩
  · have hOnT := hOn.trans h
    simp [mqtt_callback, topic_message, topic_lighting, hOnT]
  · have hOffT := hOff.trans h
    have hOnF : bytesStartWith [0x4F, 0x6E] (payload.take 255) = false := by
      rw [hOn]
      exact bytesStartWith_Off_not_On h
    simp [mqtt_callback, topic_message, topic_lighting, hOffT, hOnF]
  · have hOnF := hOn.trans h1
    have hOffF := hOff.trans h2
    simp [mqtt_callback, topic_message, topic_lighting, hOnF, hOffF]

theorem mqtt_lighting_spec_witness :
    mqtt_callback topic_lighting [0x4F, 0x6E] ⟨[], false, []⟩ =
      { flipdotMessage := [], lighting := true, serial1 := [] } ∧
    mqtt_callback topic_lighting [0x4F, 0x66, 0x66, 0x6C, 0x69, 0x6E, 0x65]
        ⟨[], true, []⟩ =
      { flipdotMessage := [], lighting := false, serial1 := [] } ∧
    mqtt_callback topic_lighting [0x6F, 0x6E] ⟨[], true, []⟩ =
      ⟨[], true, []⟩ := by
  refine ⟨?_, ?_, ?_⟩
  · exact (mqtt_lighting_spec [0x4F, 0x6E] ⟨[], false, []⟩).1 (by decide)
  · exact (mqtt_lighting_spec _ ⟨[], true, []⟩).2.1 (by decide)
  · exact (mqtt_lighting_spec [0x6F, 0x6E] ⟨[], true, []⟩).2.2 (by decide)
      (by decide)

/-- Claim C10: on any topic other than the message topic and the lighting topic,
`mqtt_callback` changes nothing: no telegram is written to the byte-sink,
the lighting output keeps its value, and the stored message buffer is left
unchanged. -/
theorem mqtt_callback_frame (topic : String) (payload : List Nat)
    (st : SysState) (h1 : topic ≠ topic_message)
    (h2 : topic ≠ topic_lighting) :
    mqtt_callback topic payload st = st := by
  simp [mqtt_callback, h1, h2]

theorem mqtt_callback_frame_witness :
    mqtt_callback topic_other [0x01, 0x02] ⟨[0x41], true, [[0x42]]⟩ =
      ⟨[0x41], true, [[0x42]]⟩ :=
  mqtt_callback_frame topic_other [0x01, 0x02] ⟨[0x41], true, [[0x42]]⟩
    (by decide) (by decide)

/-! DS021t telegram construction lemmas. -/

set_option maxRecDepth 8000 in
/-- Claim C8 counterexample: a 253-byte text with no embedded newline gets only
TWO line breaks appended — `snprintf`'s 255-byte truncation cuts the third —
so "appends exactly three line breaks otherwise" fails for it. -/
theorem DS021t_newlines_counterexample :
    (List.replicate 253 0x41).contains 0x0A = false ∧
    DS021t_message (List.replicate 253 0x41) =
      List.replicate 253 0x41 ++ [0x0A, 0x0A] ∧
    ¬DS021t_message (List.replicate 253 0x41) =
      List.replicate 253 0x41 ++ [0x0A, 0x0A, 0x0A] := by
  decide

/-- Claim C8 (amended): for texts of at most 252 bytes (so that text plus
newlines fits the 255-byte string), `DS021t` appends exactly two line
breaks when the text contains one and exactly three otherwise, and the
block count is recomputed from the current message length as
`ceil((len + 2) / 16)` — characterized by `len + 2 ≤ 16*numBlocks` and
`16*numBlocks < len + 2 + 16`. -/
theorem DS021t_newlines_and_blocks (text : List Nat)
    (hlen : text.length ≤ 252) :
    DS021t_message text =
      (if text.contains 0x0A then text ++ [0x0A, 0x0A]
       else text ++ [0x0A, 0x0A, 0x0A]) ∧
    DS021t_num_blocks text = ((DS021t_message text).length + 2 + 15) / 16 ∧
    (DS021t_message text).length + 2 ≤ DS021t_num_blocks text * 16 ∧
    DS021t_num_blocks text * 16 < (DS021t_message text).length + 2 + 16 := by
  have hdiv := Nat.div_add_mod (DS021t_len text + 2 + 15) 16
  have hmod := Nat.mod_lt (DS021t_len text + 2 + 15) (show 0 < 16 by decide)
  have hlen_def : (DS021t_message text).length = DS021t_len text := rfl
  refine ⟨?_, rfl, ?_, ?_⟩
  · unfold DS021t_message
    split_ifs
    · exact List.take_of_length_le (by simp only [List.length_append,
        List.length_cons, List.length_nil]; omega)
    · exact List.take_of_length_le (by simp only [List.length_append,
        List.length_cons, List.length_nil]; omega)
  · rw [hlen_def]
    unfold DS021t_num_blocks
    omega
  · rw [hlen_def]
    unfold DS021t_num_blocks
    omega

theorem DS021t_newlines_and_blocks_witness :
    DS021t_message [0x48, 0x69] = [0x48, 0x69] ++ [0x0A, 0x0A, 0x0A] ∧
    DS021t_num_blocks [0x48, 0x69] * 16 <
      (DS021t_message [0x48, 0x69]).length + 2 + 16 := by
  have h := DS021t_newlines_and_blocks [0x48, 0x69] (by decide)
  refine ⟨?_, h.2.2.2⟩
  rw [h.1]
  decide

/-- Claim C1 counterexample: for address 2 and the text "ü" (bytes C3 BC), the
wire bytes are the header "aA21A0" followed by a 13-byte payload, the CR and
the checksum: normalization runs only inside `send_telegram`, after the
block arithmetic, so the payload between the sub-type marker "A0" and the
CR has length 13 — not a multiple of 16, and not even when the 2-byte "A0"
marker is counted with it (15). -/
theorem DS021t_umlaut_counterexample :
    DS021t_wire 2 [0xC3, 0xBC] =
      [0x61, 0x41, 0x32, 0x31, 0x41, 0x30] ++
        ([0x7D, 0x0A, 0x0A, 0x0A] ++ List.replicate 9 0x20) ++
        [0x0D, 0x77] ∧
    ¬(16 ∣
      ([0x7D, 0x0A, 0x0A, 0x0A] ++ List.replicate 9 0x20 : List Nat).length) ∧
    ¬(16 ∣
      (([0x7D, 0x0A, 0x0A, 0x0A] ++
        List.replicate 9 0x20 : List Nat).length + 2)) := by
  decide

/-- Claim C1 (amended): for every address and every text of at most 235 bytes
containing no NUL and no `0xC3` byte (in particular none of the mapped
2-byte UTF-8 sequences), the wire bytes are the header (type marker,
VDV-hex address, VDV-hex block count, sub-type marker "A0") followed by the
padded message, the CR and a trailing remainder, and the padded message —
the payload between "A0" and the CR — has a length that is a multiple of 16
only after adding the 2 bytes of the sub-type marker. -/
theorem DS021t_payload_block_aligned (a : Int) (text : List Nat)
    (hclean : ∀ b ∈ text, b ≠ 0 ∧ b ≠ 0xC3) (hlen : text.length ≤ 235) :
    (∃ tail, DS021t_wire a text =
      ([0x61, 0x41] ++ vdv_hex a ++
        vdv_hex (Int.ofNat (DS021t_num_blocks text)) ++ [0x41, 0x30]) ++
        DS021t_padded text ++ [0x0D] ++ tail) ∧
    ((DS021t_padded text).length + 2) % 16 = 0 := by
  have hdiv := Nat.div_add_mod (DS021t_len text + 2 + 15) 16
  have hmod := Nat.mod_lt (DS021t_len text + 2 + 15) (show 0 < 16 by decide)
  have hub_def : DS021t_usable_bytes text = DS021t_num_blocks text * 16 - 2 :=
    rfl
  have hnb_def : DS021t_num_blocks text = (DS021t_len text + 2 + 15) / 16 :=
    rfl
  have hlen_def : (DS021t_message text).length = DS021t_len text := rfl
  have hm : DS021t_message text =
      (if text.contains 0x0A then text ++ [0x0A, 0x0A]
       else text ++ [0x0A, 0x0A, 0x0A]) := by
    unfold DS021t_message
    split_ifs
    · exact List.take_of_length_le (by simp only [List.length_append,
        List.length_cons, List.length_nil]; omega)
    · exact List.take_of_length_le (by simp only [List.length_append,
        List.length_cons, List.length_nil]; omega)
  have hlen_m : DS021t_len text ≤ 238 := by
    rw [← hlen_def, hm]
    split_ifs <;> simp only [List.length_append, List.length_cons,
      List.length_nil] <;> omega
  have hpad_len : (DS021t_padded text).length = DS021t_usable_bytes text := by
    unfold DS021t_padded
    rw [List.length_append, List.length_replicate, hlen_def]
    omega
  have halign : ((DS021t_padded text).length + 2) % 16 = 0 := by
    rw [hpad_len]
    omega
  have h1 := vdv_hex_length a
  have h2 := vdv_hex_length (Int.ofNat (DS021t_num_blocks text))
  have htel_len : ([0x61, 0x41] ++ vdv_hex a ++
      vdv_hex (Int.ofNat (DS021t_num_blocks text)) ++ [0x41, 0x30] ++
      DS021t_padded text).length ≤ 255 := by
    simp only [List.length_append, List.length_cons, List.length_nil]
    rw [hpad_len]
    omega
  have htel : DS021t_telegram a text =
      [0x61, 0x41] ++ vdv_hex a ++
        vdv_hex (Int.ofNat (DS021t_num_blocks text)) ++ [0x41, 0x30] ++
        DS021t_padded text := by
    unfold DS021t_telegram
    exact List.take_of_length_le htel_len
  have htel_len255 : (DS021t_telegram a text).length ≤ 255 := by
    rw [htel]
    exact htel_len
  have hcleanT : ∀ b ∈ DS021t_telegram a text, b ≠ 0 ∧ b ≠ 0xC3 := by
    rw [htel]
    intro b hb
    simp only [List.append_assoc, List.mem_append] at hb
    rcases hb with hb | hb | hb | hb | hb
    · simp only [List.mem_cons, List.not_mem_nil, or_false] at hb
      rcases hb with rfl | rfl <;> decide
    · have := vdv_hex_range a b hb
      omega
    · have := vdv_hex_range (Int.ofNat (DS021t_num_blocks text)) b hb
      omega
    · simp only [List.mem_cons, List.not_mem_nil, or_false] at hb
      rcases hb with rfl | rfl <;> decide
    · unfold DS021t_padded at hb
      rcases List.mem_append.1 hb with hb | hb
      · rw [hm] at hb
        split_ifs at hb
        · rcases List.mem_append.1 hb with hb | hb
          · exact hclean b hb
          · simp only [List.mem_cons, List.not_mem_nil, or_false] at hb
            rcases hb with rfl | rfl <;> decide
        · rcases List.mem_append.1 hb with hb | hb
          · exact hclean b hb
          · simp only [List.mem_cons, List.not_mem_nil, or_false] at hb
            rcases hb with rfl | rfl | rfl <;> decide
      · have := List.eq_of_mem_replicate hb
        subst this
        decide
  have h0T : ∀ b ∈ DS021t_telegram a text ++ [0x0D],
      (fun b => b != 0) b = true := by
    intro b hb
    rcases List.mem_append.1 hb with hb | hb
    · simpa using (hcleanT b hb).1
    · simp only [List.mem_cons, List.not_mem_nil, or_false] at hb
      subst hb
      decide
  constructor
  · refine ⟨([compute_checksum (DS021t_telegram a text ++ [0x0D])] :
      List Nat).takeWhile (fun b => b != 0), ?_⟩
    unfold DS021t_wire send_telegram
    rw [List.take_of_length_le htel_len255, process_id_of_clean hcleanT]
    unfold wrap_telegram
    rw [takeWhile_append_all
      [compute_checksum (DS021t_telegram a text ++ [0x0D])] h0T]
    rw [htel]
  · exact halign

theorem DS021t_payload_block_aligned_witness :
    (∃ tail, DS021t_wire 2 [0x48, 0x65, 0x6C, 0x6C, 0x6F] =
      ([0x61, 0x41] ++ vdv_hex 2 ++
        vdv_hex
          (Int.ofNat (DS021t_num_blocks [0x48, 0x65, 0x6C, 0x6C, 0x6F])) ++
        [0x41, 0x30]) ++
        DS021t_padded [0x48, 0x65, 0x6C, 0x6C, 0x6F] ++ [0x0D] ++ tail) ∧
    ((DS021t_padded [0x48, 0x65, 0x6C, 0x6C, 0x6F]).length + 2) % 16 = 0 :=
  DS021t_payload_block_aligned 2 [0x48, 0x65, 0x6C, 0x6C, 0x6F] (by decide)
    (by decide)

end IBIS
